import Mathlib

/-!
Verification of the chunked-synthesis + silence-normalization pipeline of
`voice_cloner.py` (class `VoiceCloner`, method `clone_voice`) against its
natural-language specification.

The embedding is shallow:
* Python strings are `List Char`; Python `str.strip()` is `stripL`
  (whitespace is `Char.isWhitespace`, matching the ASCII whitespace that
  occurs in practice).
* A pydub `AudioSegment` is a `List Int`: one entry per millisecond,
  holding that millisecond's loudness in dBFS.  Digital silence
  (`AudioSegment.silent`) is the constant `silentVal`, far below any
  realistic threshold.
* The TTS backend (`self.tts.tts_to_file`) is an external capability and
  is abstracted as a function from a parameter bag to a result; a failure
  either names the unsupported keys (the backend message
  "The following model_kwargs are not used by the model: [...]" parsed by
  the regex in `_safe_tts_to_file`) or is generic.
* pydub's `silence.detect_silence` and `AudioSegment.append` with a
  crossfade are third-party library calls; they are modelled from the
  spec's description of their contracts (see their doc comments).
-/

/-! ### Strings, `str.strip`, and the sentence splitter -/

/-- Whitespace test used throughout (`\s` in the splitting regex and
`str.strip()`). -/
def isWS (c : Char) : Bool := c.isWhitespace

/-- Python `str.strip()`: drop leading and trailing whitespace. -/
def stripL (s : List Char) : List Char :=
  ((s.dropWhile isWS).reverse.dropWhile isWS).reverse

/-- Sentence-final punctuation of the splitting regex
`(?<=[\.\!\?])\s+` in `clone_voice`. -/
def isSentEnd (c : Char) : Bool := c = '.' || c = '!' || c = '?'

/-- Scanner for `re.split(r"(?<=[\.\!\?])\s+", text)`: a whitespace run
immediately preceded by sentence-final punctuation ends the current piece
and is consumed.  `cur` is the current piece reversed; `skip` is true
while consuming such a whitespace run. -/
def splitSentAux (cur : List Char) (skip : Bool) : List Char → List (List Char)
  | [] => [cur.reverse]
  | c :: rest =>
    if skip then
      if isWS c then splitSentAux cur true rest
      else splitSentAux [c] false rest
    else
      if isWS c && (match cur with | p :: _ => isSentEnd p | [] => false) then
        cur.reverse :: splitSentAux [] true rest
      else splitSentAux (c :: cur) false rest

/-- `raw_sentences = [s.strip() for s in re.split(...) if s.strip()]`. -/
def rawSentences (t : List Char) : List (List Char) :=
  ((splitSentAux [] false t).map stripL).filter (fun s => !s.isEmpty)

/-- `MAX_CHUNK_LENGTH` in `clone_voice`. -/
def MAX_CHUNK_LENGTH : Nat := 250

/-- The greedy sentence-accumulation loop of `clone_voice` building
`chunks` from `raw_sentences` (`acc` is `chunks`, `cur` is
`current_chunk`). -/
def chunksAux (acc : List (List Char)) (cur : List Char) :
    List (List Char) → List (List Char)
  | [] => if cur = [] then acc else acc ++ [cur]
  | s :: rest =>
    if cur.length + s.length + 1 ≤ MAX_CHUNK_LENGTH then
      chunksAux acc (stripL (cur ++ ' ' :: s)) rest
    else
      chunksAux (if cur = [] then acc else acc ++ [cur]) s rest

/-- The chunk planner of `clone_voice`: sentences, then greedy grouping. -/
def makeChunks (t : List Char) : List (List Char) := chunksAux [] [] (rawSentences t)

/-- Join a list of strings with single spaces (used to state the
reconstruction property). -/
def joinSp : List (List Char) → List Char
  | [] => []
  | [x] => x
  | x :: y :: rest => x ++ ' ' :: joinSp (y :: rest)

/-! ### Facts about `stripL` -/

/-- A string has no leading whitespace. -/
def NoLeadWS (s : List Char) : Prop := ∀ c r, s = c :: r → isWS c = false

/-- A string has no trailing whitespace. -/
def NoTrailWS (s : List Char) : Prop := ∀ c r, s.reverse = c :: r → isWS c = false

theorem dropWhile_head_false {p : Char → Bool} :
    ∀ (l : List Char) {c r}, l.dropWhile p = c :: r → p c = false := by
  intro l
  induction l with
  | nil => intro c r h; simp [List.dropWhile] at h
  | cons a t ih =>
    intro c r h
    by_cases hp : p a
    · rw [List.dropWhile_cons_of_pos hp] at h; exact ih h
    · rw [List.dropWhile_cons_of_neg hp] at h
      cases h; simpa using hp

theorem exists_prefix_dropWhile (p : Char → Bool) (l : List Char) :
    ∃ u, l = u ++ l.dropWhile p := by
  induction l with
  | nil => exact ⟨[], rfl⟩
  | cons a t ih =>
    by_cases hp : p a
    · obtain ⟨u, hu⟩ := ih
      exact ⟨a :: u, by rw [List.dropWhile_cons_of_pos hp]; simpa using hu⟩
    · exact ⟨[], by simp [List.dropWhile_cons_of_neg hp]⟩

theorem stripL_noLead (p : List Char) : NoLeadWS (stripL p) := by
  intro c r h
  obtain ⟨u, hu⟩ := exists_prefix_dropWhile isWS ((p.dropWhile isWS).reverse)
  have hpd : p.dropWhile isWS = stripL p ++ u.reverse := by
    have h2 := congrArg List.reverse hu
    rw [List.reverse_reverse, List.reverse_append] at h2
    simpa [stripL] using h2
  rw [h] at hpd
  exact dropWhile_head_false p (by simpa using hpd)

theorem stripL_noTrail (p : List Char) : NoTrailWS (stripL p) := by
  intro c r h
  have hrev : (stripL p).reverse = ((p.dropWhile isWS).reverse).dropWhile isWS := by
    simp [stripL]
  rw [h] at hrev
  exact dropWhile_head_false ((p.dropWhile isWS).reverse) hrev.symm

theorem stripL_cons_ws {c : Char} (h : isWS c = true) (s : List Char) :
    stripL (c :: s) = stripL s := by
  simp [stripL, List.dropWhile_cons_of_pos h]

theorem stripL_eq_self {s : List Char} (h1 : NoLeadWS s) (h2 : NoTrailWS s) :
    stripL s = s := by
  cases s with
  | nil => rfl
  | cons c r =>
    have hc : isWS c = false := h1 c r rfl
    have step1 : stripL (c :: r) = (((c :: r).reverse).dropWhile isWS).reverse := by
      rw [stripL, List.dropWhile_cons_of_neg (by simp [hc])]
    cases hrev : (c :: r).reverse with
    | nil => simp at hrev
    | cons d r' =>
      have hdws : isWS d = false := h2 d r' hrev
      rw [step1, hrev, List.dropWhile_cons_of_neg (by simp [hdws]), ← hrev,
        List.reverse_reverse]

theorem stripL_space_cons {s : List Char} (h1 : NoLeadWS s) (h2 : NoTrailWS s) :
    stripL (' ' :: s) = s := by
  rw [stripL_cons_ws (by decide), stripL_eq_self h1 h2]

theorem noLead_glue {cur s : List Char} (hcur : cur ≠ []) (hc1 : NoLeadWS cur) :
    NoLeadWS (cur ++ ' ' :: s) := by
  intro c r h
  cases cur with
  | nil => exact absurd rfl hcur
  | cons a t =>
    have ha : a = c := by simpa using congrArg List.head? h
    exact ha ▸ hc1 a t rfl

theorem noTrail_glue {cur s : List Char} (hs : s ≠ []) (hs2 : NoTrailWS s) :
    NoTrailWS (cur ++ ' ' :: s) := by
  intro c r h
  cases hs' : s.reverse with
  | nil => exact absurd (by simpa using congrArg List.reverse hs') hs
  | cons d r' =>
    have hrw : (cur ++ ' ' :: s).reverse = d :: (r' ++ ' ' :: cur.reverse) := by
      rw [List.reverse_append, List.reverse_cons, hs']
      simp
    rw [hrw] at h
    have hcd : c = d := by simpa using (congrArg List.head? h).symm
    rw [hcd]
    exact hs2 d r' hs'

theorem stripL_glue {cur s : List Char} (hcur : cur ≠ [])
    (hc1 : NoLeadWS cur) (hs : s ≠ []) (hs2 : NoTrailWS s) :
    stripL (cur ++ ' ' :: s) = cur ++ ' ' :: s :=
  stripL_eq_self (noLead_glue hcur hc1) (noTrail_glue hs hs2)

/-! ### Chunk reconstruction (claim C3) -/

theorem joinSp_cons_ne {x : List Char} {l : List (List Char)} (h : l ≠ []) :
    joinSp (x :: l) = x ++ ' ' :: joinSp l := by
  cases l with
  | nil => exact absurd rfl h
  | cons y rest => rfl

theorem joinSp_merge (l1 : List (List Char)) (a b : List Char) (l2 : List (List Char)) :
    joinSp (l1 ++ (a ++ ' ' :: b) :: l2) = joinSp (l1 ++ a :: b :: l2) := by
  induction l1 with
  | nil =>
    cases l2 with
    | nil => simp [joinSp]
    | cons c l2' => simp [joinSp, joinSp_cons_ne]
  | cons x l1' ih =>
    have h1 : l1' ++ (a ++ ' ' :: b) :: l2 ≠ [] := by simp
    have h2 : l1' ++ a :: b :: l2 ≠ [] := by simp
    rw [List.cons_append, joinSp_cons_ne h1, List.cons_append, joinSp_cons_ne h2, ih]

/-- Invariant carried for each sentence produced by `rawSentences`. -/
def GoodSent (s : List Char) : Prop := s ≠ [] ∧ NoLeadWS s ∧ NoTrailWS s

theorem rawSentences_good (t : List Char) : ∀ s ∈ rawSentences t, GoodSent s := by
  intro s hs
  rw [rawSentences] at hs
  obtain ⟨hmem, hne⟩ := List.mem_filter.mp hs
  obtain ⟨p, _, hp⟩ := List.mem_map.mp hmem
  refine ⟨by simpa using hne, ?_, ?_⟩
  · rw [← hp]; exact stripL_noLead p
  · rw [← hp]; exact stripL_noTrail p

theorem chunksAux_join (sents : List (List Char)) :
    ∀ (acc : List (List Char)) (cur : List Char),
    (cur = [] ∨ (cur ≠ [] ∧ NoLeadWS cur ∧ NoTrailWS cur)) →
    (∀ x ∈ sents, GoodSent x) →
    joinSp (chunksAux acc cur sents) =
      joinSp (acc ++ (if cur = [] then [] else [cur]) ++ sents) := by
  induction sents with
  | nil =>
    intro acc cur _ _
    by_cases hcur : cur = [] <;> simp [chunksAux, hcur]
  | cons s rest ih =>
    intro acc cur hcur hgood
    obtain ⟨hsne, hs1, hs2⟩ := hgood s (List.mem_cons_self s rest)
    have hrest : ∀ x ∈ rest, GoodSent x := fun x hx => hgood x (List.mem_cons_of_mem s hx)
    rw [chunksAux]
    by_cases hfit : cur.length + s.length + 1 ≤ MAX_CHUNK_LENGTH
    · rw [if_pos hfit]
      by_cases hc : cur = []
      · subst hc
        simp only [List.nil_append, stripL_space_cons hs1 hs2]
        rw [ih acc s (Or.inr ⟨hsne, hs1, hs2⟩) hrest]
        simp [hsne]
      · obtain ⟨_, hc1, hc2⟩ := hcur.resolve_left hc
        have hglue := stripL_glue hc hc1 hsne hs2
        have hprops : stripL (cur ++ ' ' :: s) ≠ [] ∧
            NoLeadWS (stripL (cur ++ ' ' :: s)) ∧ NoTrailWS (stripL (cur ++ ' ' :: s)) := by
          rw [hglue]
          exact ⟨by simp, noLead_glue hc hc1, noTrail_glue hsne hs2⟩
        rw [ih acc (stripL (cur ++ ' ' :: s)) (Or.inr hprops) hrest, hglue]
        have hne2 : cur ++ ' ' :: s ≠ [] := by simp
        rw [if_neg hne2, if_neg hc]
        have e1 : acc ++ [cur ++ ' ' :: s] ++ rest = acc ++ (cur ++ ' ' :: s) :: rest := by
          simp
        have e2 : acc ++ [cur] ++ s :: rest = acc ++ cur :: s :: rest := by simp
        rw [e1, e2, joinSp_merge]
    · rw [if_neg hfit,
        ih (if cur = [] then acc else acc ++ [cur]) s (Or.inr ⟨hsne, hs1, hs2⟩) hrest]
      by_cases hc : cur = [] <;> simp [hc, hsne]

/-- Claim C3: for every text in which no sentence exceeds the maximum
chunk length (250 characters), concatenating the planner's output chunks
in order, joined by single spaces, reproduces the text's sentence content
and sentence order exactly (it equals the sentences joined by single
spaces). -/
theorem chunkPlanner_reconstructs (t : List Char)
    (_h : ∀ s ∈ rawSentences t, s.length ≤ MAX_CHUNK_LENGTH) :
    joinSp (makeChunks t) = joinSp (rawSentences t) := by
  rw [makeChunks, chunksAux_join (rawSentences t) [] [] (Or.inl rfl) (rawSentences_good t)]
  simp

/-- Witness for C3: the planner applied to the concrete text
"Hallo. Wie geht es dir?" reconstructs its sentences. -/
theorem chunkPlanner_reconstructs_witness :
    joinSp (makeChunks ("Hallo. Wie geht es dir?".data)) =
      joinSp (rawSentences ("Hallo. Wie geht es dir?".data)) :=
  chunkPlanner_reconstructs ("Hallo. Wie geht es dir?".data) (by decide)

/-! ### Parameter bags and the synthesis backend -/

/-- A value in the `tts_kwargs` dictionary: a string (text, paths,
language, emotion tags) or a number (generation knobs; Python floats are
modelled as rationals). -/
inductive Value where
  | str (s : List Char)
  | num (q : Rat)
deriving DecidableEq, Repr

/-- A Python dict used as a keyword-argument bag: an insertion-ordered
association list. -/
abbrev Kwargs := List (String × Value)

/-- `k in kw`. -/
def hasKey : Kwargs → String → Bool
  | [], _ => false
  | p :: t, k => if p.1 = k then true else hasKey t k

/-- `kw[k]` as an option. -/
def lookupKey : Kwargs → String → Option Value
  | [], _ => none
  | p :: t, k => if p.1 = k then some p.2 else lookupKey t k

/-- Dict assignment `kw[k] = v`: overwrite in place if present, else
append. -/
def setKey (kw : Kwargs) (k : String) (v : Value) : Kwargs :=
  if hasKey kw k then
    kw.map (fun p => if p.1 = k then (k, v) else p)
  else kw ++ [(k, v)]

/-- `for k in bad: kw.pop(k, None)`. -/
def removeKeys (kw : Kwargs) (bad : List String) : Kwargs :=
  kw.filter (fun p => decide (p.1 ∉ bad))

/-- Failure of one `tts_to_file` call.  `unsupported keys` stands for an
exception whose message matches the regex
"The following `model_kwargs` are not used by the model: [keys]" in
`_safe_tts_to_file` (so the parsed offending keys are available);
`generic` is any other exception. -/
inductive TTSErr where
  | unsupported (keys : List String)
  | generic
deriving DecidableEq, Repr

/-- The external synthesis capability `self.tts.tts_to_file`, abstracted:
it receives the keyword bag and either produces the waveform it writes to
the bag's output path, or fails. -/
abbrev Backend := Kwargs → Except TTSErr (List Int)

/-- Bookkeeping of the successful attempt inside `_safe_tts_to_file`:
which attempt (1-4) succeeded, the exact bag passed to that call, and the
produced waveform. -/
structure TTSCallResult where
  attempt : Nat
  used : Kwargs
  audio : List Int
deriving DecidableEq, Repr

/-- Optional keys removed by attempt 3 of `_safe_tts_to_file`. -/
def optionalKeys : List String :=
  ["emotion", "style", "style_name", "style_wav", "temperature", "speed",
   "repetition_penalty", "length_penalty"]

/-- Core keys retained by attempt 4 of `_safe_tts_to_file`, in the order
the minimal dict is built. -/
def coreKeys : List String := ["text", "speaker_wav", "file_path", "language"]

/-- `minimal = {k: kw[k] for k in ["text","speaker_wav","file_path","language"] if k in kw}`. -/
def minimalKwargs (kw : Kwargs) : Kwargs :=
  coreKeys.filterMap (fun k => (lookupKey kw k).map (fun v => (k, v)))

/-- `_safe_tts_to_file` of `voice_cloner.py`: attempt 1 with the full
bag; attempt 2 (only when the first failure names unsupported keys)
after removing exactly those keys; attempt 3 after also stripping the
optional styling/generation keys; attempt 4 with the minimal core bag;
otherwise propagate the last failure. -/
def safeTTS (b : Backend) (kwargs : Kwargs) : Except TTSErr TTSCallResult :=
  match b kwargs with
  | .ok a => .ok ⟨1, kwargs, a⟩
  | .error e1 =>
    let kw2 := match e1 with
      | .unsupported bad => removeKeys kwargs bad
      | .generic => kwargs
    let attempt2 : Option (List Int) := match e1 with
      | .unsupported bad =>
        match b (removeKeys kwargs bad) with
        | .ok a => some a
        | .error _ => none
      | .generic => none
    match attempt2 with
    | some a => .ok ⟨2, kw2, a⟩
    | none =>
      let kw3 := removeKeys kw2 optionalKeys
      match b kw3 with
      | .ok a => .ok ⟨3, kw3, a⟩
      | .error _ =>
        let minimal := minimalKwargs kw3
        match b minimal with
        | .ok a => .ok ⟨4, minimal, a⟩
        | .error e4 => .error e4

theorem hasKey_removeKeys_self (kw : Kwargs) (k : String) (bad : List String)
    (hk : k ∈ bad) : hasKey (removeKeys kw bad) k = false := by
  induction kw with
  | nil => rfl
  | cons q t ih =>
    rw [removeKeys, List.filter_cons]
    by_cases hq : q.1 ∈ bad
    · rw [if_neg (by simpa using hq)]
      exact ih
    · rw [if_pos (by simpa using hq)]
      rw [hasKey]
      have hqk : q.1 ≠ k := fun h => hq (h ▸ hk)
      rw [if_neg hqk]
      simpa [removeKeys] using ih

theorem mem_removeKeys (kw : Kwargs) (bad : List String) (p : String × Value)
    (hp : p ∈ kw) (hk : p.1 ∉ bad) : p ∈ removeKeys kw bad := by
  rw [removeKeys, List.mem_filter]
  exact ⟨hp, by simpa using hk⟩

/-- Claim C2: if the first synthesis attempt on the full bag fails with a
failure naming exactly the key "style", and the backend succeeds once
that key is removed, then `_safe_tts_to_file` succeeds on its second
attempt, the bag of that attempt is the input bag with exactly "style"
removed (every other entry survives), and it omits "style". -/
theorem invoker_second_attempt (b : Backend) (kwargs : Kwargs) (out : List Int)
    (h1 : b kwargs = .error (.unsupported ["style"]))
    (h2 : b (removeKeys kwargs ["style"]) = .ok out) :
    safeTTS b kwargs = .ok ⟨2, removeKeys kwargs ["style"], out⟩ ∧
      hasKey (removeKeys kwargs ["style"]) "style" = false ∧
      ∀ p ∈ kwargs, p.1 ≠ "style" → p ∈ removeKeys kwargs ["style"] := by
  refine ⟨?_, ?_, ?_⟩
  · rw [safeTTS, h1]
    simp [h2]
  · exact hasKey_removeKeys_self kwargs "style" ["style"] (by simp)
  · intro p hp hps
    exact mem_removeKeys kwargs ["style"] p hp (by simpa using hps)

/-- A concrete backend for the C2 witness: rejects any bag containing
"style" by naming that key, accepts any other bag with a fixed
waveform. -/
def c2backend : Backend := fun kw =>
  if hasKey kw "style" then .error (.unsupported ["style"]) else .ok [7]

/-- A concrete full bag for the C2 witness. -/
def c2bag : Kwargs :=
  [("text", Value.str "Hi.".data), ("style", Value.str "happy".data),
   ("language", Value.str "de".data)]

/-- Witness for C2 at a concrete stub backend and bag. -/
theorem invoker_second_attempt_witness :
    safeTTS c2backend c2bag =
      .ok ⟨2, removeKeys c2bag ["style"], [7]⟩ ∧
      hasKey (removeKeys c2bag ["style"]) "style" = false :=
  ⟨(invoker_second_attempt c2backend c2bag [7] (by rfl) (by rfl)).1,
   (invoker_second_attempt c2backend c2bag [7] (by rfl) (by rfl)).2.1⟩

/-! ### Configuration constants (`config.py`) -/

/-- `config.SILENCE_THRESH_DB = -40`. -/
def SILENCE_THRESH_DB : Int := -40

/-- `config.MIN_SILENCE_LEN_MS = 400`. -/
def MIN_SILENCE_LEN_MS : Nat := 400

/-- `config.KEEP_SILENCE_MS = 250`. -/
def KEEP_SILENCE_MS : Nat := 250

/-- `config.TTS_TEMPERATURE = 0.8`. -/
def TTS_TEMPERATURE : Rat := 0.8

/-- `config.TTS_SPEED = 1.0`. -/
def TTS_SPEED : Rat := 1.0

/-- `config.TTS_REPETITION_PENALTY = 1.2`. -/
def TTS_REPETITION_PENALTY : Rat := 1.2

/-- `config.TTS_LENGTH_PENALTY = 1.0`. -/
def TTS_LENGTH_PENALTY : Rat := 1.0

/-! ### The `clone_voice` argument record and parameter-bag construction -/

/-- The arguments of `clone_voice`.  `crossfade_ms` carries the outcome
of the Python `int(crossfade_ms)` conversion: `none` models passing
`None`, `some (.ok n)` a value `int()` converts to `n`, and
`some (.error ())` a malformed value on which `int()` raises (the Python
signature default `crossfade_ms=40` corresponds to `some (.ok 40)`). -/
structure CloneArgs where
  text : List Char
  speaker_wav_path : String
  language : String
  emotion : Option (List Char)
  file_path : String
  silence_thresh_db : Option Int
  min_silence_len_ms : Option Nat
  keep_silence_ms : Option Nat
  style_wav : Option String
  crossfade_ms : Option (Except Unit Int)
  temperature : Option Rat
  speed : Option Rat
  repetition_penalty : Option Rat
  length_penalty : Option Rat

/-- Construction of `tts_kwargs` in `clone_voice` (lines 87-121): core
keys, then the emotion tag under three keys, then `style_wav`, then the
four generation knobs, each defaulted from `config` when the caller
passed `None` (Python `float()` on a number is the identity here). -/
def buildKwargs (a : CloneArgs) : Kwargs :=
  let kw : Kwargs :=
    [("text", Value.str a.text), ("speaker_wav", Value.str a.speaker_wav_path.data),
     ("language", Value.str a.language.data), ("file_path", Value.str a.file_path.data)]
  let kw := match a.emotion with
    | some e => setKey (setKey (setKey kw "emotion" (Value.str e)) "style" (Value.str e))
        "style_name" (Value.str e)
    | none => kw
  let kw := match a.style_wav with
    | some w => setKey kw "style_wav" (Value.str w.data)
    | none => kw
  let kw := setKey kw "temperature" (Value.num (a.temperature.getD TTS_TEMPERATURE))
  let kw := setKey kw "speed" (Value.num (a.speed.getD TTS_SPEED))
  let kw := setKey kw "repetition_penalty"
    (Value.num (a.repetition_penalty.getD TTS_REPETITION_PENALTY))
  setKey kw "length_penalty" (Value.num (a.length_penalty.getD TTS_LENGTH_PENALTY))

theorem lookupKey_setKey_self (kw : Kwargs) (k : String) (v : Value) :
    lookupKey (setKey kw k v) k = some v := by
  rw [setKey]
  induction kw with
  | nil => simp [hasKey, lookupKey]
  | cons q t ih =>
    by_cases hq : q.1 = k
    · rw [if_pos (by simp [hasKey, hq])]
      simp [lookupKey, hq]
    · by_cases ht : hasKey t k = true
      · rw [if_pos (by simp [hasKey, hq, ht])]
        rw [if_pos ht] at ih
        simpa [lookupKey, hq] using ih
      · rw [if_neg (by simp [hasKey, hq, ht])]
        rw [if_neg ht] at ih
        simpa [lookupKey, hq] using ih

theorem lookupKey_map_overwrite (t : Kwargs) (k k' : String) (v : Value)
    (hne : k' ≠ k) :
    lookupKey (t.map (fun p => if p.1 = k then (k, v) else p)) k' =
      lookupKey t k' := by
  induction t with
  | nil => rfl
  | cons q t ih =>
    by_cases hq : q.1 = k
    · simp [lookupKey, hq, Ne.symm hne, ih]
    · by_cases hq' : q.1 = k'
      · simp [lookupKey, hq, hq', hne]
      · simp [lookupKey, hq, hq', ih]

theorem lookupKey_append_single (t : Kwargs) (k k' : String) (v : Value)
    (hne : k' ≠ k) : lookupKey (t ++ [(k, v)]) k' = lookupKey t k' := by
  induction t with
  | nil => simp [lookupKey, Ne.symm hne]
  | cons q t ih =>
    by_cases hq' : q.1 = k'
    · simp [lookupKey, hq']
    · simp [lookupKey, hq', ih]

theorem lookupKey_setKey_other (kw : Kwargs) (k k' : String) (v : Value)
    (hne : k' ≠ k) : lookupKey (setKey kw k v) k' = lookupKey kw k' := by
  rw [setKey]
  by_cases h : hasKey kw k = true
  · rw [if_pos h]
    exact lookupKey_map_overwrite kw k k' v hne
  · rw [if_neg h]
    exact lookupKey_append_single kw k k' v hne

theorem hasKey_eq_isSome (kw : Kwargs) (k : String) :
    hasKey kw k = (lookupKey kw k).isSome := by
  induction kw with
  | nil => rfl
  | cons q t ih =>
    simp only [hasKey, lookupKey]
    by_cases hq : q.1 = k
    · simp [hq]
    · simp [hq, ih]

theorem hasKey_setKey_self (kw : Kwargs) (k : String) (v : Value) :
    hasKey (setKey kw k v) k = true := by
  rw [hasKey_eq_isSome, lookupKey_setKey_self]
  rfl

theorem hasKey_false_of_not_mem (kw : Kwargs) (k : String)
    (h : ∀ p ∈ kw, p.1 ≠ k) : hasKey kw k = false := by
  induction kw with
  | nil => rfl
  | cons q t ih =>
    rw [hasKey, if_neg (h q (List.mem_cons_self q t))]
    exact ih (fun p hp => h p (List.mem_cons_of_mem q hp))

theorem minimal_keys_core (kw : Kwargs) : ∀ p ∈ minimalKwargs kw, p.1 ∈ coreKeys := by
  intro p hp
  rw [minimalKwargs] at hp
  obtain ⟨k, hk, hpk⟩ := List.mem_filterMap.mp hp
  cases hv : lookupKey kw k with
  | none => rw [hv] at hpk; simp at hpk
  | some v =>
    rw [hv] at hpk
    simp only [Option.map_some'] at hpk
    cases hpk
    exact hk

/-- Claim C10: whenever the caller omits any of `temperature`, `speed`,
`repetition_penalty`, or `length_penalty` (passes `None`), `clone_voice`
still puts all four keys into the parameter bag of the first synthesis
attempt, with the omitted ones filled from the `config` defaults
(0.8, 1.0, 1.2, 1.0); since attempt 1 of `_safe_tts_to_file` passes the
bag unchanged, the first attempt is never the minimal core-parameter
call (the minimal bag has no "temperature" key, the first-attempt bag
always does). -/
theorem defaults_fill_first_attempt (a : CloneArgs) :
    (a.temperature = none →
      lookupKey (buildKwargs a) "temperature" = some (Value.num 0.8)) ∧
    (a.speed = none →
      lookupKey (buildKwargs a) "speed" = some (Value.num 1.0)) ∧
    (a.repetition_penalty = none →
      lookupKey (buildKwargs a) "repetition_penalty" = some (Value.num 1.2)) ∧
    (a.length_penalty = none →
      lookupKey (buildKwargs a) "length_penalty" = some (Value.num 1.0)) ∧
    hasKey (buildKwargs a) "temperature" = true ∧
    hasKey (buildKwargs a) "speed" = true ∧
    hasKey (buildKwargs a) "repetition_penalty" = true ∧
    hasKey (buildKwargs a) "length_penalty" = true ∧
    hasKey (minimalKwargs (buildKwargs a)) "temperature" = false ∧
    (∀ (b : Backend) (out : List Int), b (buildKwargs a) = .ok out →
      safeTTS b (buildKwargs a) = .ok ⟨1, buildKwargs a, out⟩) := by
  have hT : lookupKey (buildKwargs a) "temperature" =
      some (Value.num (a.temperature.getD TTS_TEMPERATURE)) := by
    simp only [buildKwargs]
    rw [lookupKey_setKey_other _ _ _ _ (by decide),
      lookupKey_setKey_other _ _ _ _ (by decide),
      lookupKey_setKey_other _ _ _ _ (by decide), lookupKey_setKey_self]
  have hS : lookupKey (buildKwargs a) "speed" =
      some (Value.num (a.speed.getD TTS_SPEED)) := by
    simp only [buildKwargs]
    rw [lookupKey_setKey_other _ _ _ _ (by decide),
      lookupKey_setKey_other _ _ _ _ (by decide), lookupKey_setKey_self]
  have hR : lookupKey (buildKwargs a) "repetition_penalty" =
      some (Value.num (a.repetition_penalty.getD TTS_REPETITION_PENALTY)) := by
    simp only [buildKwargs]
    rw [lookupKey_setKey_other _ _ _ _ (by decide), lookupKey_setKey_self]
  have hL : lookupKey (buildKwargs a) "length_penalty" =
      some (Value.num (a.length_penalty.getD TTS_LENGTH_PENALTY)) := by
    simp only [buildKwargs]
    rw [lookupKey_setKey_self]
  refine ⟨?_, ?_, ?_, ?_, ?_, ?_, ?_, ?_, ?_, ?_⟩
  · intro h; rw [hT, h]; rfl
  · intro h; rw [hS, h]; rfl
  · intro h; rw [hR, h]; rfl
  · intro h; rw [hL, h]; rfl
  · rw [hasKey_eq_isSome, hT]; rfl
  · rw [hasKey_eq_isSome, hS]; rfl
  · rw [hasKey_eq_isSome, hR]; rfl
  · rw [hasKey_eq_isSome, hL]; rfl
  · refine hasKey_false_of_not_mem _ _ (fun p hp hk => ?_)
    have hcore := minimal_keys_core (buildKwargs a) p hp
    rw [hk] at hcore
    exact (by decide : "temperature" ∉ coreKeys) hcore
  · intro b out h
    rw [safeTTS, h]

/-- Concrete arguments for the C10 witness: all four generation knobs
omitted. -/
def c10args : CloneArgs :=
  { text := "Hallo.".data, speaker_wav_path := "ref.wav", language := "de",
    emotion := none, file_path := "out.wav", silence_thresh_db := none,
    min_silence_len_ms := none, keep_silence_ms := none, style_wav := none,
    crossfade_ms := some (.ok 40), temperature := none, speed := none,
    repetition_penalty := none, length_penalty := none }

/-- Witness for C10: with all four knobs omitted, the first-attempt bag
carries the config defaults. -/
theorem defaults_fill_first_attempt_witness :
    lookupKey (buildKwargs c10args) "temperature" = some (Value.num 0.8) ∧
    lookupKey (buildKwargs c10args) "speed" = some (Value.num 1.0) ∧
    lookupKey (buildKwargs c10args) "repetition_penalty" = some (Value.num 1.2) ∧
    lookupKey (buildKwargs c10args) "length_penalty" = some (Value.num 1.0) ∧
    hasKey (minimalKwargs (buildKwargs c10args)) "temperature" = false :=
  ⟨(defaults_fill_first_attempt c10args).1 rfl,
   (defaults_fill_first_attempt c10args).2.1 rfl,
   (defaults_fill_first_attempt c10args).2.2.1 rfl,
   (defaults_fill_first_attempt c10args).2.2.2.1 rfl,
   (defaults_fill_first_attempt c10args).2.2.2.2.2.2.2.2.1⟩

/-! ### Waveforms and silence detection -/

/-- A waveform: one dBFS loudness value per millisecond. -/
abbrev Audio := List Int

/-- Digital silence (`AudioSegment.silent`): modelled as a constant
loudness far below any realistic threshold. -/
def silentVal : Int := -1000

/-- Millisecond `i` of the waveform is below the threshold. -/
def silentAt (audio : Audio) (thr : Int) (i : Nat) : Prop :=
  ∃ v, audio.get? i = some v ∧ v < thr

/-- Modelled from the spec: pydub's `silence.detect_silence` (a
third-party call, not repository code) returns the maximal runs where
the waveform stays below the threshold, kept only when at least
`min_silence_len` long.  This is the scanner producing maximal runs;
`cur` holds the start of the silent run currently open. -/
def runsAux (thr : Int) : Nat → Option Nat → List Int → List (Nat × Nat)
  | i, some s, [] => [(s, i)]
  | _, none, [] => []
  | i, some s, v :: rest =>
    if v < thr then runsAux thr (i + 1) (some s) rest
    else (s, i) :: runsAux thr (i + 1) none rest
  | i, none, v :: rest =>
    if v < thr then runsAux thr (i + 1) (some i) rest
    else runsAux thr (i + 1) none rest

/-- Modelled from the spec: `silence.detect_silence(audio,
min_silence_len, silence_thresh)` — maximal silent runs of length at
least `minSil`, as `(start, end)` pairs in order. -/
def detectSilence (audio : Audio) (minSil : Nat) (thr : Int) : List (Nat × Nat) :=
  (runsAux thr 0 none audio).filter (fun r => decide (minSil ≤ r.2 - r.1))

/-- Declarative description of a maximal silent run: nonempty, within
bounds, silent throughout, not extendable on either side. -/
def IsMaxSilentRun (audio : Audio) (thr : Int) (s e : Nat) : Prop :=
  s < e ∧ e ≤ audio.length ∧ (∀ i, s ≤ i → i < e → silentAt audio thr i) ∧
  (s = 0 ∨ ¬ silentAt audio thr (s - 1)) ∧ ¬ silentAt audio thr e

/-- Invariant of the scanner state at offset `i`. -/
def StateInv (audio : Audio) (thr : Int) (i : Nat) : Option Nat → Prop
  | none => i = 0 ∨ ¬ silentAt audio thr (i - 1)
  | some s0 => s0 < i ∧ (∀ j, s0 ≤ j → j < i → silentAt audio thr j) ∧
      (s0 = 0 ∨ ¬ silentAt audio thr (s0 - 1))

/-- Lower bound on starts of runs still to be emitted. -/
def stateLB (i : Nat) : Option Nat → Nat
  | none => i
  | some s0 => s0

theorem silentAt_append_cons (pre : List Int) (v : Int) (rest : List Int) (thr : Int) :
    silentAt (pre ++ v :: rest) thr pre.length ↔ v < thr := by
  unfold silentAt
  rw [List.get?_append_right (le_refl pre.length), Nat.sub_self]
  simp

theorem not_silentAt_of_ge (audio : Audio) (thr : Int) (i : Nat)
    (h : audio.length ≤ i) : ¬ silentAt audio thr i := by
  rintro ⟨v, hv, _⟩
  rw [List.get?_eq_none.mpr h] at hv
  exact Option.noConfusion hv

theorem runsAux_mem_iff (audio : Audio) (thr : Int) :
    ∀ (l pre : List Int) (cur : Option Nat), audio = pre ++ l →
    StateInv audio thr pre.length cur →
    ∀ s e, ((s, e) ∈ runsAux thr pre.length cur l ↔
      (IsMaxSilentRun audio thr s e ∧ stateLB pre.length cur ≤ s)) := by
  intro l
  induction l with
  | nil =>
    intro pre cur h hinv s e
    have hlen : audio.length = pre.length := by rw [h]; simp
    cases cur with
    | none =>
      simp only [runsAux, List.not_mem_nil, false_iff, stateLB]
      rintro ⟨⟨hse, hel, _, _, _⟩, hls⟩
      omega
    | some s0 =>
      obtain ⟨hs0, hall, hleft⟩ := hinv
      simp only [runsAux, List.mem_singleton, stateLB]
      constructor
      · intro hp
        rw [Prod.mk.injEq] at hp
        obtain ⟨rfl, rfl⟩ := hp
        exact ⟨⟨hs0, hlen.ge, hall, hleft,
          not_silentAt_of_ge audio thr pre.length hlen.le⟩, le_refl s⟩
      · rintro ⟨⟨hse, hel, hsil, hlft, hre⟩, hls⟩
        rw [hlen] at hel
        have hs_eq : s = s0 := by
          by_contra hne
          have h1 : s0 < s := lt_of_le_of_ne hls (Ne.symm hne)
          have h2 : silentAt audio thr (s - 1) := hall (s - 1) (by omega) (by omega)
          rcases hlft with h0 | hns
          · omega
          · exact hns h2
        have he_eq : e = pre.length := by
          by_contra hne
          have h1 : e < pre.length := lt_of_le_of_ne hel hne
          exact hre (hall e (by omega) h1)
        rw [hs_eq, he_eq]
  | cons v rest ih =>
    intro pre cur h hv_inv s e
    have hsilv : silentAt audio thr pre.length ↔ v < thr := by
      rw [h]; exact silentAt_append_cons pre v rest thr
    have happ : audio = (pre ++ [v]) ++ rest := by rw [h]; simp
    have hlen1 : (pre ++ [v]).length = pre.length + 1 := by simp
    by_cases hv : v < thr
    · cases cur with
      | none =>
        have hrw : runsAux thr pre.length none (v :: rest) =
            runsAux thr (pre.length + 1) (some pre.length) rest := by
          simp only [runsAux, if_pos hv]
        have hinv' : StateInv audio thr (pre ++ [v]).length (some pre.length) := by
          rw [hlen1]
          refine ⟨by omega, ?_, hv_inv⟩
          intro j hj1 hj2
          have hj : j = pre.length := by omega
          rw [hj]
          exact hsilv.mpr hv
        have hih := ih (pre ++ [v]) (some pre.length) happ hinv' s e
        rw [hlen1] at hih
        rw [hrw, hih]
        simp [stateLB]
      | some s0 =>
        obtain ⟨hs0, hall, hleft⟩ := hv_inv
        have hrw : runsAux thr pre.length (some s0) (v :: rest) =
            runsAux thr (pre.length + 1) (some s0) rest := by
          simp only [runsAux, if_pos hv]
        have hinv' : StateInv audio thr (pre ++ [v]).length (some s0) := by
          rw [hlen1]
          refine ⟨by omega, ?_, hleft⟩
          intro j hj1 hj2
          by_cases hj : j = pre.length
          · rw [hj]; exact hsilv.mpr hv
          · exact hall j hj1 (by omega)
        have hih := ih (pre ++ [v]) (some s0) happ hinv' s e
        rw [hlen1] at hih
        rw [hrw, hih]
        simp [stateLB]
    · have hnsil : ¬ silentAt audio thr pre.length := fun hs => hv (hsilv.mp hs)
      cases cur with
      | none =>
        have hrw : runsAux thr pre.length none (v :: rest) =
            runsAux thr (pre.length + 1) none rest := by
          simp only [runsAux, if_neg hv]
        have hinv' : StateInv audio thr (pre ++ [v]).length none := by
          rw [hlen1]
          exact Or.inr (by simpa using hnsil)
        have hih := ih (pre ++ [v]) none happ hinv' s e
        rw [hlen1] at hih
        rw [hrw, hih]
        simp only [stateLB]
        constructor
        · rintro ⟨hmax, hls⟩
          exact ⟨hmax, by omega⟩
        · rintro ⟨hmax, hls⟩
          refine ⟨hmax, ?_⟩
          have hne : s ≠ pre.length := by
            intro hq
            obtain ⟨hse, _, hsil, _, _⟩ := hmax
            exact hnsil (hq ▸ hsil s (le_refl s) hse)
          omega
      | some s0 =>
        obtain ⟨hs0, hall, hleft⟩ := hv_inv
        have hrw : runsAux thr pre.length (some s0) (v :: rest) =
            (s0, pre.length) :: runsAux thr (pre.length + 1) none rest := by
          simp only [runsAux, if_neg hv]
        have hinv' : StateInv audio thr (pre ++ [v]).length none := by
          rw [hlen1]
          exact Or.inr (by simpa using hnsil)
        have hih := ih (pre ++ [v]) none happ hinv' s e
        rw [hlen1] at hih
        rw [hrw]
        simp only [stateLB] at hih
        simp only [stateLB]
        constructor
        · intro hmem
          rcases List.mem_cons.mp hmem with h1 | h1
          · rw [Prod.mk.injEq] at h1
            obtain ⟨rfl, rfl⟩ := h1
            refine ⟨⟨hs0, ?_, hall, hleft, hnsil⟩, le_refl s⟩
            rw [h]
            simp only [List.length_append, List.length_cons]
            omega
          · obtain ⟨hmax, hls⟩ := hih.mp h1
            exact ⟨hmax, by omega⟩
        · rintro ⟨hmax, hls⟩
          by_cases hcase : s ≤ pre.length
          · obtain ⟨hse, hel, hsil, hlft, hre⟩ := hmax
            have hs_eq : s = s0 := by
              by_contra hne
              have h1 : s0 < s := lt_of_le_of_ne hls (Ne.symm hne)
              have h2 : silentAt audio thr (s - 1) := hall (s - 1) (by omega) (by omega)
              rcases hlft with h0 | hns
              · omega
              · exact hns h2
            have he_le : e ≤ pre.length := by
              by_contra hgt
              push_neg at hgt
              exact hnsil (hsil pre.length hcase hgt)
            have he_eq : e = pre.length := by
              by_contra hne
              have h1 : e < pre.length := lt_of_le_of_ne he_le hne
              exact hre (hall e (by omega) h1)
            exact List.mem_cons.mpr (Or.inl (by rw [hs_eq, he_eq]))
          · push_neg at hcase
            exact List.mem_cons.mpr (Or.inr (hih.mpr ⟨hmax, by omega⟩))

theorem detectSilence_mem_iff (audio : Audio) (minSil : Nat) (thr : Int)
    (s e : Nat) :
    (s, e) ∈ detectSilence audio minSil thr ↔
      (IsMaxSilentRun audio thr s e ∧ minSil ≤ e - s) := by
  rw [detectSilence, List.mem_filter]
  have h := runsAux_mem_iff audio thr audio [] none (by simp) (Or.inl rfl) s e
  constructor
  · rintro ⟨hmem, hfilt⟩
    exact ⟨(h.mp hmem).1, by simpa using hfilt⟩
  · rintro ⟨hmax, hlen⟩
    exact ⟨h.mpr ⟨hmax, Nat.zero_le s⟩, by simpa using hlen⟩

/-! ### Silence rewriting (claims C4 and C5) -/

/-- Python slice `audio[a:b]`. -/
def sliceMs (audio : Audio) (a b : Nat) : Audio := (audio.drop a).take (b - a)

/-- The `parts` list built by the silence post-processing loop of
`clone_voice` (lines 252-266): for each detected range, the non-silent
span since `prev_end` (when nonempty), then a `keep`-long silence block;
finally the trailing audio (when nonempty). -/
def rebuildParts (audio : Audio) (keep : Nat) : List (Nat × Nat) → Nat → List Audio
  | [], prevEnd =>
    if prevEnd < audio.length then [sliceMs audio prevEnd audio.length] else []
  | (s, e) :: rs, prevEnd =>
    (if prevEnd < s then [sliceMs audio prevEnd s] else []) ++
      (List.replicate keep silentVal :: rebuildParts audio keep rs e)

/-- `processed = sum(parts)`: concatenation of the parts. -/
def rebuild (audio : Audio) (ranges : List (Nat × Nat)) (keep : Nat) : Audio :=
  (rebuildParts audio keep ranges 0).join

/-- Modelled from the spec: "Build the output by copying every
non-silent span verbatim and substituting a fixed-length silence block
for each qualifying run, in input order; trailing non-silent audio after
the last run is copied verbatim." -/
def rebuildSpec (audio : Audio) (keep : Nat) : List (Nat × Nat) → Nat → Audio
  | [], prev => audio.drop prev
  | (s, e) :: rs, prev =>
    (audio.drop prev).take (s - prev) ++
      (List.replicate keep silentVal ++ rebuildSpec audio keep rs e)

theorem rebuildParts_join_eq_spec (audio : Audio) (keep : Nat) :
    ∀ (ranges : List (Nat × Nat)) (prev : Nat),
    (rebuildParts audio keep ranges prev).join = rebuildSpec audio keep ranges prev := by
  intro ranges
  induction ranges with
  | nil =>
    intro prev
    by_cases h : prev < audio.length
    · simp only [rebuildParts, if_pos h, rebuildSpec, sliceMs, List.join]
      rw [← List.length_drop, List.take_length]
      simp
    · simp only [rebuildParts, if_neg h, rebuildSpec, List.join]
      rw [List.drop_eq_nil_of_le (by omega)]
      simp
  | cons r rs ih =>
    intro prev
    obtain ⟨s, e⟩ := r
    by_cases h : prev < s
    · simp only [rebuildParts, if_pos h, rebuildSpec, sliceMs]
      simp [ih]
    · simp only [rebuildParts, if_neg h, rebuildSpec]
      rw [Nat.sub_eq_zero_of_le (by omega), List.take_zero]
      simp [ih]

/-- The silence post-processing of `clone_voice` (lines 246-273) as a
standalone normalizer: detect qualifying silent ranges; if there are
none, return the audio unchanged without re-exporting (second component
`false`); otherwise rebuild and re-export (`true`). -/
def normalizeSilence (audio : Audio) (thr : Int) (minSil keep : Nat) : Audio × Bool :=
  let ranges := detectSilence audio minSil thr
  if ranges = [] then (audio, false)
  else (rebuild audio ranges keep, true)

/-- The concrete waveform of the spec's silence test: 200ms of loud
audio, a 500ms silent run at -50dBFS, then 200ms of loud audio. -/
def c4audio : Audio :=
  List.replicate 200 0 ++ List.replicate 500 (-50) ++ List.replicate 200 0

set_option maxRecDepth 100000 in
/-- Claim C4: the silence normalizer's output is exactly the spec-shaped
rewrite — every non-silent span copied verbatim in input order and each
detected run replaced by a silence block of exactly `keep` ms
(conjunct 1); the detected runs are exactly the maximal silent runs of
length at least the minimum, so shorter runs stay inside the verbatim
spans (conjunct 2); and on a 500ms silent run at threshold -40dB with
minimum 300ms and keep 100ms the output is the input with that run
replaced by exactly 100ms of silence and unchanged elsewhere
(conjunct 3). -/
theorem silenceNormalizer_rewrites (audio : Audio) (thr : Int) (minSil keep : Nat) :
    (normalizeSilence audio thr minSil keep).1 =
      rebuildSpec audio keep (detectSilence audio minSil thr) 0 ∧
    (∀ s e, (s, e) ∈ detectSilence audio minSil thr ↔
      (IsMaxSilentRun audio thr s e ∧ minSil ≤ e - s)) ∧
    (normalizeSilence c4audio (-40) 300 100).1 =
      List.replicate 200 (0 : Int) ++ List.replicate 100 silentVal ++
        List.replicate 200 (0 : Int) := by
  refine ⟨?_, detectSilence_mem_iff audio minSil thr, ?_⟩
  · simp only [normalizeSilence]
    by_cases h : detectSilence audio minSil thr = []
    · rw [h]
      simp [rebuildSpec]
    · rw [if_neg h, rebuild, rebuildParts_join_eq_spec]
  · decide

/-- Witness for C4: the concrete 500ms-run instance, extracted by
applying the theorem. -/
theorem silenceNormalizer_rewrites_witness :
    (normalizeSilence c4audio (-40) 300 100).1 =
      List.replicate 200 (0 : Int) ++ List.replicate 100 silentVal ++
        List.replicate 200 (0 : Int) :=
  (silenceNormalizer_rewrites [] 0 0 0).2.2

/-- Claim C5: on a waveform with no span that stays below the threshold
for at least the minimum duration, the silence normalizer is the
identity and performs no re-export. -/
theorem silenceNormalizer_noop (audio : Audio) (thr : Int) (minSil keep : Nat)
    (h : ∀ s e, s < e → e ≤ audio.length →
      (∀ i, s ≤ i → i < e → silentAt audio thr i) → e - s < minSil) :
    normalizeSilence audio thr minSil keep = (audio, false) := by
  have hdet : detectSilence audio minSil thr = [] := by
    rw [List.eq_nil_iff_forall_not_mem]
    rintro ⟨s, e⟩ hmem
    obtain ⟨⟨hse, hel, hsil, _, _⟩, hmin⟩ :=
      (detectSilence_mem_iff audio minSil thr s e).mp hmem
    have := h s e hse hel hsil
    omega
  rw [normalizeSilence]
  simp [hdet]

/-- Witness for C5: a fully loud 3ms waveform is returned unchanged with
no re-export. -/
theorem silenceNormalizer_noop_witness :
    normalizeSilence [0, 0, 0] (-40) 2 1 = ([0, 0, 0], false) := by
  apply silenceNormalizer_noop
  intro s e hse _ hsil
  obtain ⟨v, hv, hvlt⟩ := hsil s (le_refl s) hse
  have hvmem : v ∈ [(0 : Int), 0, 0] := List.get?_mem hv
  have hv0 : v = 0 := by simpa using hvmem
  omega

/-! ### Crossfade stitching (claim C6) -/

/-- Modelled from the spec: pydub's `combined.append(seg, crossfade=c)`
(a third-party call, not repository code) overlaps the last `c` ms of
the first segment with the first `c` ms of the second, so one fades out
while the next fades in; the overlap region is modelled by pointwise
`max` of the two loudness curves (its exact mixing law is irrelevant to
the claims, which concern durations). -/
def appendCrossfade (a b : Audio) (c : Nat) : Audio :=
  a.take (a.length - c) ++
    (List.zipWith (fun x y => max x y) (a.drop (a.length - c)) (b.take c) ++ b.drop c)

/-- The merge loop of `clone_voice` (lines 223-229): the first segment,
then each following segment appended with the configured crossfade. -/
def stitchSegs (c : Nat) : List Audio → Option Audio
  | [] => none
  | a :: rest => some (rest.foldl (fun acc s => appendCrossfade acc s c) a)

theorem appendCrossfade_length {a b : Audio} {c : Nat}
    (ha : c ≤ a.length) (hb : c ≤ b.length) :
    (appendCrossfade a b c).length = a.length + b.length - c := by
  simp only [appendCrossfade, List.length_append, List.length_take,
    List.length_drop, List.length_zipWith]
  omega

theorem stitch_fold_length (c : Nat) :
    ∀ (rest : List Audio) (acc : Audio), c ≤ acc.length →
    (∀ s ∈ rest, c ≤ s.length) →
    (rest.foldl (fun acc s => appendCrossfade acc s c) acc).length + rest.length * c =
      acc.length + (rest.map List.length).sum := by
  intro rest
  induction rest with
  | nil => intro acc _ _; simp
  | cons s rs ih =>
    intro acc hacc hall
    have hs : c ≤ s.length := hall s (List.mem_cons_self s rs)
    have hnext : c ≤ (appendCrossfade acc s c).length := by
      rw [appendCrossfade_length hacc hs]
      omega
    have hrs : ∀ x ∈ rs, c ≤ x.length := fun x hx => hall x (List.mem_cons_of_mem s hx)
    have := ih (appendCrossfade acc s c) hnext hrs
    rw [List.foldl_cons, List.map_cons, List.sum_cons, List.length_cons,
      Nat.succ_mul]
    rw [appendCrossfade_length hacc hs] at this
    omega

/-- Claim C6: merging N >= 2 synthesized chunk segments with a positive
crossfade `c` (no longer than any segment, as pydub requires) yields a
waveform whose duration is the sum of the segment durations minus
(N-1) * c milliseconds — each of the N-1 joins overlaps tail and head.
The model is exact, so the equality holds with zero rounding error. -/
theorem stitcher_duration (segs : List Audio) (c : Nat)
    (h2 : 2 ≤ segs.length) (_hc : 0 < c) (hall : ∀ s ∈ segs, c ≤ s.length) :
    ∃ m, stitchSegs c segs = some m ∧
      m.length = (segs.map List.length).sum - (segs.length - 1) * c := by
  cases segs with
  | nil => simp at h2
  | cons a rest =>
    refine ⟨_, rfl, ?_⟩
    have ha : c ≤ a.length := hall a (List.mem_cons_self a rest)
    have hrest : ∀ s ∈ rest, c ≤ s.length :=
      fun s hs => hall s (List.mem_cons_of_mem a hs)
    have hfold := stitch_fold_length c rest a ha hrest
    rw [List.map_cons, List.sum_cons, List.length_cons, Nat.add_sub_cancel]
    omega

/-- Witness for C6: three 2ms segments merged with a 1ms crossfade give
a 4ms result (6 - 2*1). -/
theorem stitcher_duration_witness :
    ∃ m, stitchSegs 1 [[0, 0], [0, 0], [0, 0]] = some m ∧
      m.length = ([[(0 : Int), 0], [0, 0], [0, 0]].map List.length).sum -
        ([[(0 : Int), 0], [0, 0], [0, 0]].length - 1) * 1 :=
  stitcher_duration [[0, 0], [0, 0], [0, 0]] 1 (by decide) (by decide) (by decide)

/-! ### The clone_voice pipeline (claims C1, C7, C8, C9) -/

/-- Typed failures of `clone_voice`, following the spec's taxonomy:
`invalidInput` is the `ValueError("Text cannot be empty")` of line 70,
`referenceNotFound` the `FileNotFoundError` of line 73, `referenceInvalid`
the too-small-file `ValueError` of line 78 (all three raised before the
`try` block, hence surfaced unwrapped), and `synthesisFailed` the
`RuntimeError` wrapper of line 283 around any failure inside the `try`. -/
inductive CloneErr where
  | invalidInput
  | referenceNotFound
  | referenceInvalid
  | synthesisFailed
deriving DecidableEq, Repr

/-- The ambient effects `clone_voice` interacts with: the synthesis
backend, the reference-audio file checks (`os.path.exists`,
`os.path.getsize`), and the two failure points of the silence
post-processing (`AudioSegment.from_file` on the intermediate file, and
the final `processed.export`), which may raise. -/
structure Env where
  backend : Backend
  speakerExists : Bool
  speakerSize : Nat
  loadFails : Bool
  normExportFails : Bool

/-- Lines 177-180: `cross = int(crossfade_ms) if crossfade_ms is not
None else 0`, with any exception from `int()` caught and `cross` set
to 0. -/
def resolvedCross (a : CloneArgs) : Int :=
  match a.crossfade_ms with
  | none => 0
  | some (.ok n) => n
  | some (.error _) => 0

/-- The transient per-chunk output path (`part_{i}_{uuid}.wav`; the
uuid component is irrelevant to the claims). -/
def partPath (i : Nat) : List Char := ("part_" ++ toString i ++ ".wav").data

/-- The per-chunk synthesis loop (lines 209-220): each chunk is
synthesized via `_safe_tts_to_file` on a copy of the bag with `text` and
`file_path` replaced; the first chunk failure aborts the whole loop. -/
def chunkAudios (b : Backend) (kw : Kwargs) :
    Nat → List (List Char) → Except TTSErr (List Audio)
  | _, [] => .ok []
  | i, ch :: rest =>
    let pkw := setKey (setKey kw "text" (Value.str ch)) "file_path"
      (Value.str (partPath i))
    match safeTTS b pkw with
    | .error e => .error e
    | .ok r =>
      match chunkAudios b kw (i + 1) rest with
      | .error e => .error e
      | .ok l => .ok (r.audio :: l)

/-- The synthesis portion of `clone_voice` (lines 176-234): when the
parsed crossfade is positive, plan chunks; a single chunk (or none) is
synthesized directly, several chunks are synthesized one by one and
merged with the crossfade; when the parsed crossfade is not positive,
the whole text is synthesized in one call. -/
def synthPhase (env : Env) (a : CloneArgs) : Except TTSErr Audio :=
  let kw := buildKwargs a
  let cross := resolvedCross a
  if 0 < cross then
    let chunks := makeChunks a.text
    if chunks.length ≤ 1 then
      match safeTTS env.backend kw with
      | .error e => .error e
      | .ok r => .ok r.audio
    else
      match chunkAudios env.backend kw 0 chunks with
      | .error e => .error e
      | .ok segs => .ok ((stitchSegs cross.toNat segs).getD [])
  else
    match safeTTS env.backend kw with
    | .error e => .error e
    | .ok r => .ok r.audio

/-- The silence post-processing of `clone_voice` (lines 236-275), whose
whole body is wrapped in a `try/except` that only logs: if loading the
intermediate file raises, or no qualifying silent ranges exist, or the
re-export raises, the waveform on disk stays the synthesized one;
otherwise it is replaced by the rebuilt waveform. -/
def postPhase (env : Env) (a : CloneArgs) (raw : Audio) : Audio :=
  if env.loadFails then raw
  else
    let thr := a.silence_thresh_db.getD SILENCE_THRESH_DB
    let minSil := a.min_silence_len_ms.getD MIN_SILENCE_LEN_MS
    let keep := a.keep_silence_ms.getD KEEP_SILENCE_MS
    let ranges := detectSilence raw minSil thr
    if ranges = [] then raw
    else if env.normExportFails then raw
    else rebuild raw ranges keep

/-- `clone_voice` end to end: validation (empty text, missing reference,
too-small reference), then synthesis, then non-fatal silence
post-processing; the success value is the returned `file_path` together
with the waveform that ends up stored there. -/
def cloneVoice (env : Env) (a : CloneArgs) : Except CloneErr (String × Audio) :=
  if a.text = [] ∨ stripL a.text = [] then .error .invalidInput
  else if env.speakerExists = false then .error .referenceNotFound
  else if env.speakerSize < 1000 then .error .referenceInvalid
  else
    match synthPhase env a with
    | .error _ => .error .synthesisFailed
    | .ok raw => .ok (a.file_path, postPhase env a raw)

/-- Claim C8: a request whose text is empty or only whitespace fails
with `invalidInput`, for every environment and backend whatsoever — so
no chunking, synthesis, stitching, or normalization step can have run. -/
theorem empty_text_invalid (env : Env) (a : CloneArgs)
    (h : a.text = [] ∨ stripL a.text = []) :
    cloneVoice env a = .error .invalidInput := by
  rw [cloneVoice, if_pos h]

/-- A benign concrete environment for the pipeline witnesses. -/
def okEnv : Env :=
  { backend := fun _ => .ok [0, 0, 0], speakerExists := true,
    speakerSize := 5000, loadFails := false, normExportFails := false }

/-- Concrete arguments with whitespace-only text. -/
def c8args : CloneArgs := { c10args with text := "   ".data }

/-- Witness for C8: whitespace-only text is rejected as invalid input. -/
theorem empty_text_invalid_witness :
    cloneVoice okEnv c8args = .error .invalidInput :=
  empty_text_invalid okEnv c8args (Or.inr (by decide))

/-- Claim C7: when silence normalization cannot run — the intermediate
audio fails to load, or qualifying ranges exist but the rewrite/export
raises — the pipeline still succeeds and returns the path with the
unnormalized waveform produced by synthesis/stitching. -/
theorem normalization_failure_nonfatal (env : Env) (a : CloneArgs) (raw : Audio)
    (hval : ¬ (a.text = [] ∨ stripL a.text = []))
    (hex : env.speakerExists = true) (hsz : ¬ env.speakerSize < 1000)
    (hsynth : synthPhase env a = .ok raw)
    (hfail : env.loadFails = true ∨
      (env.normExportFails = true ∧
        detectSilence raw (a.min_silence_len_ms.getD MIN_SILENCE_LEN_MS)
          (a.silence_thresh_db.getD SILENCE_THRESH_DB) ≠ [])) :
    cloneVoice env a = .ok (a.file_path, raw) := by
  have hpost : postPhase env a raw = raw := by
    simp only [postPhase]
    rcases hfail with hl | ⟨hne, hdet⟩
    · rw [if_pos hl]
    · by_cases hl : env.loadFails
      · rw [if_pos hl]
      · rw [if_neg hl, if_neg hdet, if_pos hne]
  rw [cloneVoice, if_neg hval, if_neg (by simp [hex]), if_neg hsz, hsynth]
  show Except.ok (a.file_path, postPhase env a raw) = Except.ok (a.file_path, raw)
  rw [hpost]

/-- Environment for the C7 witness: synthesis succeeds, loading the
intermediate audio for normalization raises. -/
def c7env : Env :=
  { backend := fun _ => .ok [5, 5, 5], speakerExists := true,
    speakerSize := 5000, loadFails := true, normExportFails := false }

/-- Witness for C7: with a failing normalization load, the pipeline
returns the synthesized waveform unchanged. -/
theorem normalization_failure_nonfatal_witness :
    cloneVoice c7env c10args = .ok ("out.wav", [5, 5, 5]) :=
  normalization_failure_nonfatal c7env c10args [5, 5, 5] (by decide) rfl
    (by decide) (by rfl) (Or.inl rfl)

/-- Concrete arguments whose crossfade parameter is malformed (the
Python `int()` conversion raises). -/
def c9args : CloneArgs := { c10args with crossfade_ms := some (.error ()) }

/-- Counterexample to C9 as stated: with a malformed crossfade
parameter and everything else valid, `clone_voice` does not fail with
`invalidInput` — it succeeds, because lines 177-180 catch the `int()`
exception and silently set the crossfade to 0. -/
theorem malformed_crossfade_not_invalid :
    cloneVoice okEnv c9args = .ok ("out.wav", [0, 0, 0]) ∧
      cloneVoice okEnv c9args ≠ .error .invalidInput := by
  have h1 : cloneVoice okEnv c9args = .ok ("out.wav", [0, 0, 0]) := by rfl
  refine ⟨h1, ?_⟩
  rw [h1]
  intro h
  exact Except.noConfusion h

/-- Claim C9 (amended): a malformed crossfade parameter does not fail
the request at all; `int()`'s exception is caught and the value is
coerced to 0, so the run is indistinguishable from one where the caller
passed no crossfade. -/
theorem malformed_crossfade_coerced (env : Env) (a : CloneArgs)
    (h : a.crossfade_ms = some (.error ())) :
    cloneVoice env a = cloneVoice env { a with crossfade_ms := none } := by
  obtain ⟨t, sp, lg, em, fp, st, ms, ks, sw, cf, tp, spd, rp, lp⟩ := a
  replace h : cf = some (.error ()) := h
  subst h
  simp only [cloneVoice, synthPhase, resolvedCross, buildKwargs, postPhase]

/-- Witness for the amended C9 at concrete inputs. -/
theorem malformed_crossfade_coerced_witness :
    cloneVoice okEnv c9args = cloneVoice okEnv { c9args with crossfade_ms := none } :=
  malformed_crossfade_coerced okEnv c9args rfl

/-- A text whose planner output is two chunks: two 130-character
sentences (130 + 130 + 1 > 250). -/
def c1text : List Char :=
  List.replicate 129 'a' ++ '.' :: ' ' :: (List.replicate 129 'b' ++ ['.'])

/-- A backend that reveals which text it was called on: it returns a
one-sample waveform holding the length of the bag's `text` entry. -/
def c1backend : Backend := fun kw =>
  match lookupKey kw "text" with
  | some (Value.str t) => .ok [(t.length : Int)]
  | _ => .error .generic

/-- Arguments with the two-chunk text and an explicit crossfade of 0. -/
def c1args : CloneArgs := { c10args with text := c1text, crossfade_ms := some (.ok 0) }

/-- Environment with the text-length backend. -/
def c1env : Env :=
  { backend := c1backend, speakerExists := true, speakerSize := 5000,
    loadFails := false, normExportFails := false }

set_option maxRecDepth 100000 in
/-- Counterexample to C1 as stated: the planner splits `c1text` into two
chunks, yet with crossfade 0 the pipeline synthesizes the WHOLE text in
a single backend call (the output waveform records the full 261-char
text), not the two chunks concatenated with a hard cut (which would
record the two 130-char chunk texts): `if cross > 0` at line 182 gates
the entire chunked path, so crossfade 0 disables chunked synthesis
itself, not just the overlap. -/
theorem crossfade_zero_skips_chunking_cex :
    (makeChunks c1text).length = 2 ∧
    cloneVoice c1env c1args = .ok ("out.wav", [(261 : Int)]) ∧
    cloneVoice c1env c1args ≠ .ok ("out.wav", [(130 : Int), 130]) := by
  have h1 : cloneVoice c1env c1args = .ok ("out.wav", [(261 : Int)]) := by rfl
  refine ⟨by decide, h1, ?_⟩
  rw [h1]
  intro h
  have h2 := Except.ok.inj h
  have h3 := congrArg (fun p => p.2.length) h2
  simp at h3

/-- Claim C1 (amended): when the crossfade resolves to 0 (or any
non-positive value), `clone_voice` skips the chunked-synthesis path
entirely and synthesizes the full text in a single `_safe_tts_to_file`
invocation on the unmodified bag, regardless of how many chunks the
planner would produce. -/
theorem crossfade_zero_single_call (env : Env) (a : CloneArgs)
    (h : resolvedCross a ≤ 0) :
    synthPhase env a =
      match safeTTS env.backend (buildKwargs a) with
      | .error e => .error e
      | .ok r => .ok r.audio := by
  simp only [synthPhase]
  rw [if_neg (by omega)]

/-- Witness for the amended C1 at the concrete two-chunk input. -/
theorem crossfade_zero_single_call_witness :
    synthPhase c1env c1args =
      match safeTTS c1env.backend (buildKwargs c1args) with
      | .error e => .error e
      | .ok r => .ok r.audio :=
  crossfade_zero_single_call c1env c1args (by decide)
